import Mathlib

/-!
# Verification of the stm32crc_tricks incremental CRC engine

Shallow embedding of `crc32_demo.c` (functions `crc32start`, `crc32process`,
`crc32finish`, `crc32lt4bytes`, and the bit-serial reference `cleverCRC`),
with machine words modelled as `Nat` reduced modulo `2^32` where the C code's
`uint32_t` arithmetic truncates.  Memory is modelled as a list of bytes
together with the address of its first byte (only the address modulo 4
matters to the code).
-/

namespace Stm32Crc

/-- The CRC polynomial `POLY` from the source (`0x04c11db7`). -/
def POLY : Nat := 0x04c11db7

/-- One iteration of the inner bit loop of `cleverCRC`: given the current
shift register `crcReg` (a `uint32`) and the current data bit (0 or 1),
shift left by one (truncating to 32 bits) and XOR in `POLY` when the
popped-out bit XOR the data bit is set. -/
def crcShiftBit (crcReg dataBit : Nat) : Nat :=
  let popCrc := (((crcReg >>> 31) &&& 1) ^^^ dataBit)
  if popCrc ≠ 0 then (((crcReg <<< 1) % 2 ^ 32) ^^^ POLY)
  else (crcReg <<< 1) % 2 ^ 32

/-- `(b & bitMask) ? 1 : 0` — extraction of one data bit in `cleverCRC`. -/
def dataBitOf (b mask : Nat) : Nat := if b &&& mask ≠ 0 then 1 else 0

/-- The inner loop of `cleverCRC` for one byte: the bit mask runs
`0x80, 0x40, ..., 0x01`, i.e. the byte is processed MSB-first. -/
def crcByte (crcReg b : Nat) : Nat :=
  let c1 := crcShiftBit crcReg (dataBitOf b 0x80)
  let c2 := crcShiftBit c1 (dataBitOf b 0x40)
  let c3 := crcShiftBit c2 (dataBitOf b 0x20)
  let c4 := crcShiftBit c3 (dataBitOf b 0x10)
  let c5 := crcShiftBit c4 (dataBitOf b 0x08)
  let c6 := crcShiftBit c5 (dataBitOf b 0x04)
  let c7 := crcShiftBit c6 (dataBitOf b 0x02)
  crcShiftBit c7 (dataBitOf b 0x01)

/-- `cleverCRC(crcReg, pData, numBytes)`: the bit-serial shift-register
reference implementation, processing the given bytes in order,
each byte MSB-first. -/
def cleverCRC (crcReg : Nat) (data : List Nat) : Nat :=
  data.foldl crcByte crcReg

/-- The 32-bit word obtained by `__REV(*pData32)` when the four bytes
`b0, b1, b2, b3` sit at increasing addresses on a little-endian machine:
`b0` becomes the most significant byte. -/
def wordBE (b0 b1 b2 b3 : Nat) : Nat :=
  ((b0 &&& 0xff) <<< 24) ||| ((b1 &&& 0xff) <<< 16) |||
    ((b2 &&& 0xff) <<< 8) ||| (b3 &&& 0xff)

/-- `CRC_PROCESS_WORD(word)` (PC simulation of the STM32 CRC peripheral):
feed the four bytes of `word`, most significant first, through the
bit-serial shift register starting from the current peripheral value `p`. -/
def crcWriteWord (p w : Nat) : Nat :=
  cleverCRC p [(w >>> 24) &&& 0xff, (w >>> 16) &&& 0xff, (w >>> 8) &&& 0xff, w &&& 0xff]

/-- The engine state: the CRC peripheral's register (`periphCRC`, read by
`CRC_READ`, written via `CRC_PROCESS_WORD`) and the module's correction
variable `extraCRC`. -/
structure CRCState where
  periphCRC : Nat
  extraCRC : Nat
  deriving DecidableEq, Repr

/-- `crc32start(initialValue)`: `CRC_RESET()` sets the peripheral to
`0xffffffff`; `extraCRC` is set to `0xffffffff` and then XORed with
`initialValue`. -/
def crc32start (initialValue : Nat) : CRCState :=
  { periphCRC := 0xffffffff, extraCRC := (0xffffffff ^^^ initialValue) }

/-- `crc32finish()`: reads the peripheral, XORs `extraCRC` into the reading
and returns it.  The state (peripheral and `extraCRC`) is returned
unchanged, reflecting that the C function performs no writes. -/
def crc32finish (s : CRCState) : Nat × CRCState :=
  ((s.periphCRC ^^^ s.extraCRC), s)

/-- `crc32lt4bytes(pData, numBytes)` for `numBytes < 4`: the sub-word
corrector.  Each branch mirrors the corresponding `switch` case of the C
code (`case 1`, `case 2`, `case 3/default`), including the `uint32_t`
truncation of `oldCRC << 8*n`.  A list of length ≥ 4 falls into the
C `default` branch, which reads only the first three bytes. -/
def crc32lt4bytes (s : CRCState) (data : List Nat) : CRCState :=
  match data with
  | [] => s
  | [b0] =>
      let oldCRC0 := s.periphCRC
      let val0 := oldCRC0
      let oldCRC := (oldCRC0 ^^^ s.extraCRC)
      let dataBytes := b0 &&& 0x000000ff
      let extraCRC := (oldCRC <<< 8) % 2 ^ 32
      let val := (((val0 ^^^ dataBytes)) ^^^ ((oldCRC >>> 24) &&& 0x000000ff))
      { periphCRC := crcWriteWord s.periphCRC val, extraCRC := extraCRC }
  | [b0, b1] =>
      let oldCRC0 := s.periphCRC
      let val0 := oldCRC0
      let oldCRC := (oldCRC0 ^^^ s.extraCRC)
      let dataBytes := (((b0 <<< 8) &&& 0x0000ff00) ^^^ ((b1 <<< 0) &&& 0x000000ff))
      let extraCRC := (oldCRC <<< 16) % 2 ^ 32
      let val := (((val0 ^^^ dataBytes)) ^^^ ((oldCRC >>> 16) &&& 0x0000ffff))
      { periphCRC := crcWriteWord s.periphCRC val, extraCRC := extraCRC }
  | b0 :: b1 :: b2 :: _ =>
      let oldCRC0 := s.periphCRC
      let val0 := oldCRC0
      let oldCRC := (oldCRC0 ^^^ s.extraCRC)
      let dataBytes := 0
      let val1 := ((val0 ^^^ ((b0 <<< 16) &&& 0x00ff0000))
                    ^^^ ((b1 <<< 8) &&& 0x0000ff00)) ^^^ ((b2 <<< 0) &&& 0x000000ff)
      let extraCRC := (oldCRC <<< 24) % 2 ^ 32
      let val := (((val1 ^^^ dataBytes)) ^^^ ((oldCRC >>> 8) &&& 0x00ffffff))
      { periphCRC := crcWriteWord s.periphCRC val, extraCRC := extraCRC }

/-- The word loop of `crc32process`: as long as at least four bytes remain,
read a word (`__REV` of the little-endian load, i.e. `wordBE` of the four
bytes) and feed it to the peripheral; return the final peripheral value and
the (fewer than four) leftover bytes. -/
def feedWords (p : Nat) (data : List Nat) : Nat × List Nat :=
  match data with
  | b0 :: b1 :: b2 :: b3 :: rest => feedWords (crcWriteWord p (wordBE b0 b1 b2 b3)) rest
  | rest => (p, rest)

/-- The part of `crc32process` that runs after head alignment (from the
comment `/* now pData is at a word address, or numBytes is zero */` on):
if at least four bytes remain, the unrolled first iteration of the word
loop XORs `extraCRC` into the first data word and zeroes `extraCRC`, the
loop (`feedWords`) consumes the remaining full words, and any 1–3
remaining bytes go to `crc32lt4bytes`; with fewer than four bytes the word
loop is skipped and the remainder goes to `crc32lt4bytes` directly. -/
def crc32bulk (s : CRCState) (data : List Nat) : CRCState :=
  match data with
  | b0 :: b1 :: b2 :: b3 :: rest2 =>
      let p1 := crcWriteWord s.periphCRC (((wordBE b0 b1 b2 b3) ^^^ s.extraCRC))
      let pr := feedWords p1 rest2
      crc32lt4bytes { periphCRC := pr.1, extraCRC := 0 } pr.2
  | rest => crc32lt4bytes s rest

/-- `crc32process(pData, numBytes)`, with the memory at `pData` modelled as
the byte list `data` and `addr` the numeric value of the pointer `pData`
(only `addr % 4` is consulted).  Head alignment: when `pData` is not at a
word address, `startBytes = min (4 - addr % 4) numBytes` bytes are routed
to `crc32lt4bytes` and the pointer advances; the rest of the function is
`crc32bulk`. -/
def crc32process (s : CRCState) (addr : Nat) (data : List Nat) : CRCState :=
  let r := addr % 4
  let k := if r = 0 then 0 else min (4 - r) data.length
  crc32bulk (crc32lt4bytes s (data.take k)) (data.drop k)

/-- A whole session: `crc32start`, a sequence of `crc32process` calls
(each given as the start address of its byte range paired with the bytes
in that range), and `crc32finish`. -/
def runSession (initialValue : Nat) (calls : List (Nat × List Nat)) : Nat :=
  (crc32finish (calls.foldl (fun s c => crc32process s c.1 c.2) (crc32start initialValue))).1

/-- The data-byte placement performed by the `switch` of `crc32lt4bytes`:
the `n ∈ {1,2,3}` bytes are masked to 8 bits and placed in the `n`
least-significant byte lanes, the first byte most significant among them
(in `case 3` the bytes are XORed directly into `val`; the placement is the
same). -/
def dataBytesOf : List Nat → Nat
  | [] => 0
  | [b0] => b0 &&& 0x000000ff
  | [b0, b1] => (((b0 <<< 8) &&& 0x0000ff00) ^^^ ((b1 <<< 0) &&& 0x000000ff))
  | b0 :: b1 :: b2 :: _ =>
      ((((b0 <<< 16) &&& 0x00ff0000) ^^^ ((b1 <<< 8) &&& 0x0000ff00)))
        ^^^ ((b2 <<< 0) &&& 0x000000ff)

/-- Modelled from the spec's words for claim C4 (§4.3 "Form `dataWord`"):
place `bytes[0..n-1]` into the `n` *most*-significant byte positions of a
32-bit word (byte 0 most significant among the `n`), zero elsewhere.
Stated only to be compared against the placement the code performs. -/
def dataWordSpecMSB : List Nat → Nat
  | [] => 0
  | [b0] => (b0 &&& 0xff) <<< 24
  | [b0, b1] => ((b0 &&& 0xff) <<< 24) ||| ((b1 &&& 0xff) <<< 16)
  | b0 :: b1 :: b2 :: _ =>
      ((b0 &&& 0xff) <<< 24) ||| ((b1 &&& 0xff) <<< 16) ||| ((b2 &&& 0xff) <<< 8)

/-! ## Bitwise helper lemmas -/

/-- Right shift distributes over XOR. -/
lemma xor_shr (a b k : Nat) : ((a ^^^ b)) >>> k = ((a >>> k) ^^^ (b >>> k)) := by
  apply Nat.eq_of_testBit_eq
  intro i
  simp

/-- Left shift distributes over XOR. -/
lemma xor_shl (a b k : Nat) : ((a ^^^ b)) <<< k = ((a <<< k) ^^^ (b <<< k)) := by
  apply Nat.eq_of_testBit_eq
  intro i
  simp only [Nat.testBit_shiftLeft, Nat.testBit_xor]
  by_cases h : k ≤ i <;> simp [h, ge_iff_le]

/-- Truncation to a power of two distributes over XOR. -/
lemma xor_mod_pow (a b n : Nat) : ((a ^^^ b)) % 2 ^ n = ((a % 2 ^ n) ^^^ (b % 2 ^ n)) := by
  apply Nat.eq_of_testBit_eq
  intro i
  simp only [Nat.testBit_mod_two_pow, Nat.testBit_xor]
  by_cases h : i < n <;> simp [h]

/-- Composing two truncated left shifts. -/
lemma shl_mod_shl (x a b : Nat) :
    (((x <<< a) % 2 ^ 32) <<< b) % 2 ^ 32 = (x <<< (a + b)) % 2 ^ 32 := by
  simp only [Nat.shiftLeft_eq, pow_add]
  rw [Nat.mod_mul_mod, mul_assoc]

/-- A 32-bit left shift truncates to zero. -/
lemma shl32_mod (x : Nat) : (x <<< 32) % 2 ^ 32 = 0 := by
  simp [Nat.shiftLeft_eq]

/-- Extracting one bit as the 0/1 value of `testBit`. -/
lemma shr_and_one (x k : Nat) : (x >>> k) &&& 1 = (x.testBit k).toNat := by
  rw [Nat.and_one_is_mod, Nat.shiftRight_eq_div_pow, ← Nat.toNat_testBit]

/-- `dataBitOf` at a power-of-two mask is the corresponding `testBit`. -/
lemma dataBitOf_pow (b j : Nat) : dataBitOf b (2 ^ j) = (b.testBit j).toNat := by
  unfold dataBitOf
  rw [Nat.and_two_pow]
  cases h : b.testBit j <;> simp [h]

/-- XOR of 0/1 values given by Booleans. -/
lemma xor_toNat (s t : Bool) : (s.toNat ^^^ t.toNat) = (s.xor t).toNat := by
  cases s <;> cases t <;> rfl

/-! ## The injection lemma

XORing a value `e` into the shift register before a step is the same as
XORing the bit of `e` that would pop out into the incoming data bit and
carrying the left-shifted remainder of `e` alongside.  This is the linearity
fact all correction algebra of the C code rests on. -/

/-- One-bit injection step. -/
lemma crcShiftBit_inject (c e b : Nat) :
    crcShiftBit (c ^^^ e) b
      = (crcShiftBit c (b ^^^ ((e >>> 31) &&& 1)) ^^^ ((e <<< 1) % 2 ^ 32)) := by
  have hpop : ((((c ^^^ e) >>> 31) &&& 1) ^^^ b)
      = (((c >>> 31) &&& 1) ^^^ (b ^^^ ((e >>> 31) &&& 1))) := by
    rw [xor_shr, Nat.and_xor_distrib_right, Nat.xor_assoc,
      Nat.xor_comm ((e >>> 31) &&& 1) b]
  have hshl : ((c ^^^ e) <<< 1) % 2 ^ 32
      = (((c <<< 1) % 2 ^ 32) ^^^ ((e <<< 1) % 2 ^ 32)) := by
    rw [xor_shl, xor_mod_pow]
  simp only [crcShiftBit, hpop, hshl]
  by_cases h : (((c >>> 31) &&& 1) ^^^ (b ^^^ ((e >>> 31) &&& 1))) ≠ 0
  · simp only [if_pos h]
    rw [Nat.xor_assoc, Nat.xor_assoc, Nat.xor_comm ((e <<< 1) % 2 ^ 32) POLY]
  · simp only [if_neg h]

/-- The popped-out bit of the carried value, after `k` truncated left
shifts, is a bit of the top byte of the original value. -/
lemma dataBit_inject_gen (b e m j k : Nat) (hm : m = 2 ^ j) (hj : j < 8)
    (hk : k + j = 7) :
    dataBitOf (b ^^^ ((e >>> 24) &&& 0xff)) m
      = (dataBitOf b m ^^^ ((((e <<< k) % 2 ^ 32) >>> 31) &&& 1)) := by
  subst hm
  have hT : ((e >>> 24) &&& 0xff).testBit j = e.testBit (24 + j) := by
    have h8 : Nat.testBit 0xff j = true := by
      interval_cases j <;> decide
    simp [h8]
  have hE : (((e <<< k) % 2 ^ 32)).testBit 31 = e.testBit (24 + j) := by
    have h31 : 31 - k = 24 + j := by omega
    have hk31 : 31 ≥ k := by omega
    rw [Nat.testBit_mod_two_pow, Nat.testBit_shiftLeft]
    simp [hk31, h31]
  rw [dataBitOf_pow, dataBitOf_pow, shr_and_one, hE, Nat.testBit_xor, hT, xor_toNat]

/-- Variant of `dataBit_inject_gen` for the first (mask `0x80`) step, where
no shift of the carried value has happened yet. -/
lemma dataBit_inject80 (b e : Nat) :
    dataBitOf (b ^^^ ((e >>> 24) &&& 0xff)) 0x80
      = (dataBitOf b 0x80 ^^^ ((e >>> 31) &&& 1)) := by
  have hT : ((e >>> 24) &&& 0xff).testBit 7 = e.testBit 31 := by
    have h255 : Nat.testBit 0xff 7 = true := by decide
    simp [h255]
  rw [show (0x80 : Nat) = 2 ^ 7 by norm_num, dataBitOf_pow, dataBitOf_pow,
    shr_and_one, Nat.testBit_xor, hT, xor_toNat]

/-- One-byte injection step: XORing `e` into the register before a byte is
the same as XORing the top byte of `e` into the data byte and carrying
`e <<< 8` (truncated) alongside. -/
lemma crcByte_inject (c e b : Nat) :
    crcByte (c ^^^ e) b
      = (crcByte c (b ^^^ ((e >>> 24) &&& 0xff)) ^^^ ((e <<< 8) % 2 ^ 32)) := by
  simp only [crcByte]
  rw [crcShiftBit_inject, crcShiftBit_inject, crcShiftBit_inject, crcShiftBit_inject,
    crcShiftBit_inject, crcShiftBit_inject, crcShiftBit_inject, crcShiftBit_inject]
  simp only [shl_mod_shl, Nat.reduceAdd]
  rw [dataBit_inject80 b e,
    dataBit_inject_gen b e 0x40 6 1 (by norm_num) (by norm_num) (by norm_num),
    dataBit_inject_gen b e 0x20 5 2 (by norm_num) (by norm_num) (by norm_num),
    dataBit_inject_gen b e 0x10 4 3 (by norm_num) (by norm_num) (by norm_num),
    dataBit_inject_gen b e 0x08 3 4 (by norm_num) (by norm_num) (by norm_num),
    dataBit_inject_gen b e 0x04 2 5 (by norm_num) (by norm_num) (by norm_num),
    dataBit_inject_gen b e 0x02 1 6 (by norm_num) (by norm_num) (by norm_num),
    dataBit_inject_gen b e 0x01 0 7 (by norm_num) (by norm_num) (by norm_num)]

/-! ## Mask arithmetic -/

/-- Masking with `0xff` is reduction modulo 256. -/
lemma and_ff (x : Nat) : x &&& 0xff = x % 256 := by
  have h := Nat.and_pow_two_sub_one_eq_mod x 8
  norm_num at h
  exact h

/-- Masking with `0xffff` is reduction modulo 2^16. -/
lemma and_ffff (x : Nat) : x &&& 0xffff = x % 65536 := by
  have h := Nat.and_pow_two_sub_one_eq_mod x 16
  norm_num at h
  exact h

/-- Masking with `0xffffff` is reduction modulo 2^24. -/
lemma and_ffffff (x : Nat) : x &&& 0xffffff = x % 16777216 := by
  have h := Nat.and_pow_two_sub_one_eq_mod x 24
  norm_num at h
  exact h

lemma tb_ff_lo (i : Nat) (h : i < 8) : Nat.testBit 0xff i = true := by
  interval_cases i <;> decide

lemma tb_ff_hi (i : Nat) (h : 8 ≤ i) : Nat.testBit 0xff i = false :=
  Nat.testBit_lt_two_pow
    (lt_of_lt_of_le (by norm_num) (Nat.pow_le_pow_right (by norm_num) h))

/-- `(x << 8) & 0xff00` places the low byte of `x` in the second byte lane. -/
lemma shl8_and_ff00 (x : Nat) : (x <<< 8) &&& 0xff00 = (x % 256) * 256 := by
  have hrhs : (x % 256) * 256 = (x % 2 ^ 8) <<< 8 := by
    rw [Nat.shiftLeft_eq]; norm_num
  rw [hrhs]
  apply Nat.eq_of_testBit_eq
  intro i
  simp only [Nat.testBit_and, Nat.testBit_shiftLeft, Nat.testBit_mod_two_pow]
  rcases lt_or_ge i 8 with h1 | h1
  · have hf : Nat.testBit 0xff00 i = false := by interval_cases i <;> decide
    have hge : ¬ (8 ≤ i) := by omega
    simp [hf, hge]
  · rcases lt_or_ge i 16 with h2 | h2
    · have hf : Nat.testBit 0xff00 i = true := by interval_cases i <;> decide
      have hlt : i - 8 < 8 := by omega
      simp [hf, h1, hlt, ge_iff_le]
    · have hf : Nat.testBit 0xff00 i = false :=
        Nat.testBit_lt_two_pow
          (lt_of_lt_of_le (by norm_num) (Nat.pow_le_pow_right (by norm_num) h2))
      have hlt : ¬ (i - 8 < 8) := by omega
      simp [hf, hlt]

/-- `(x << 16) & 0xff0000` places the low byte of `x` in the third byte lane. -/
lemma shl16_and_ff0000 (x : Nat) : (x <<< 16) &&& 0xff0000 = (x % 256) * 65536 := by
  have hrhs : (x % 256) * 65536 = (x % 2 ^ 8) <<< 16 := by
    rw [Nat.shiftLeft_eq]; norm_num
  rw [hrhs]
  apply Nat.eq_of_testBit_eq
  intro i
  simp only [Nat.testBit_and, Nat.testBit_shiftLeft, Nat.testBit_mod_two_pow]
  rcases lt_or_ge i 16 with h1 | h1
  · have hf : Nat.testBit 0xff0000 i = false := by interval_cases i <;> decide
    have hge : ¬ (16 ≤ i) := by omega
    simp [hf, hge]
  · rcases lt_or_ge i 24 with h2 | h2
    · have hf : Nat.testBit 0xff0000 i = true := by interval_cases i <;> decide
      have hlt : i - 16 < 8 := by omega
      simp [hf, h1, hlt, ge_iff_le]
    · have hf : Nat.testBit 0xff0000 i = false :=
        Nat.testBit_lt_two_pow
          (lt_of_lt_of_le (by norm_num) (Nat.pow_le_pow_right (by norm_num) h2))
      have hlt : ¬ (i - 16 < 8) := by omega
      simp [hf, hlt]

/-! ## Byte extraction from `wordBE` -/

lemma wordBE_byte0 (b0 b1 b2 b3 : Nat) :
    ((wordBE b0 b1 b2 b3) >>> 24) &&& 0xff = b0 &&& 0xff := by
  apply Nat.eq_of_testBit_eq
  intro i
  rcases lt_or_ge i 8 with hi | hi
  · have e1 : 24 + i - 24 = i := by omega
    have e2 : 24 + i ≥ 24 := by omega
    have f1 : Nat.testBit 0xff (24 + i - 16) = false := tb_ff_hi _ (by omega)
    have f2 : Nat.testBit 0xff (24 + i - 8) = false := tb_ff_hi _ (by omega)
    have f3 : Nat.testBit 0xff (24 + i) = false := tb_ff_hi _ (by omega)
    simp [wordBE, e1, e2, f1, f2, f3, tb_ff_lo i hi]
  · have f : Nat.testBit 0xff i = false := tb_ff_hi i hi
    simp [f]

lemma wordBE_byte1 (b0 b1 b2 b3 : Nat) :
    ((wordBE b0 b1 b2 b3) >>> 16) &&& 0xff = b1 &&& 0xff := by
  apply Nat.eq_of_testBit_eq
  intro i
  rcases lt_or_ge i 8 with hi | hi
  · have e1 : 16 + i - 16 = i := by omega
    have e2 : 16 + i ≥ 16 := by omega
    have g0 : ¬ (16 + i ≥ 24) := by omega
    have f2 : Nat.testBit 0xff (16 + i - 8) = false := tb_ff_hi _ (by omega)
    have f3 : Nat.testBit 0xff (16 + i) = false := tb_ff_hi _ (by omega)
    simp [wordBE, e1, e2, g0, f2, f3, tb_ff_lo i hi]
  · have f : Nat.testBit 0xff i = false := tb_ff_hi i hi
    simp [f]

lemma wordBE_byte2 (b0 b1 b2 b3 : Nat) :
    ((wordBE b0 b1 b2 b3) >>> 8) &&& 0xff = b2 &&& 0xff := by
  apply Nat.eq_of_testBit_eq
  intro i
  rcases lt_or_ge i 8 with hi | hi
  · have e1 : 8 + i - 8 = i := by omega
    have e2 : 8 + i ≥ 8 := by omega
    have g0 : ¬ (8 + i ≥ 24) := by omega
    have g1 : ¬ (8 + i ≥ 16) := by omega
    have f3 : Nat.testBit 0xff (8 + i) = false := tb_ff_hi _ (by omega)
    simp [wordBE, e1, e2, g0, g1, f3, tb_ff_lo i hi]
  · have f : Nat.testBit 0xff i = false := tb_ff_hi i hi
    simp [f]

lemma wordBE_byte3 (b0 b1 b2 b3 : Nat) :
    (wordBE b0 b1 b2 b3) &&& 0xff = b3 &&& 0xff := by
  apply Nat.eq_of_testBit_eq
  intro i
  rcases lt_or_ge i 8 with hi | hi
  · have g0 : ¬ (i ≥ 24) := by omega
    have g1 : ¬ (i ≥ 16) := by omega
    have g2 : ¬ (i ≥ 8) := by omega
    simp [wordBE, g0, g1, g2, tb_ff_lo i hi]
  · have f : Nat.testBit 0xff i = false := tb_ff_hi i hi
    simp [f]

/-! ## `crcByte` depends only on the low byte of its data argument -/

lemma and_ff_and_ff (x : Nat) : (x &&& 0xff) &&& 0xff = x &&& 0xff := by
  rw [Nat.and_assoc]
  norm_num

lemma crcByte_congr (c b b' : Nat) (h : b &&& 0xff = b' &&& 0xff) :
    crcByte c b = crcByte c b' := by
  have hd : ∀ j, j < 8 → b.testBit j = b'.testBit j := by
    intro j hj
    have h1 := congrArg (fun x => Nat.testBit x j) h
    simp only [Nat.testBit_and, tb_ff_lo j hj, Bool.and_true] at h1
    exact h1
  have hm : ∀ j, j < 8 → dataBitOf b (2 ^ j) = dataBitOf b' (2 ^ j) := by
    intro j hj
    rw [dataBitOf_pow, dataBitOf_pow, hd j hj]
  have m7 := hm 7 (by norm_num)
  have m6 := hm 6 (by norm_num)
  have m5 := hm 5 (by norm_num)
  have m4 := hm 4 (by norm_num)
  have m3 := hm 3 (by norm_num)
  have m2 := hm 2 (by norm_num)
  have m1 := hm 1 (by norm_num)
  have m0 := hm 0 (by norm_num)
  norm_num at m7 m6 m5 m4 m3 m2 m1 m0
  simp only [crcByte]
  rw [m7, m6, m5, m4, m3, m2, m1, m0]

lemma crcByte_and_ff (c b : Nat) : crcByte c (b &&& 0xff) = crcByte c b :=
  crcByte_congr c _ b (and_ff_and_ff b)

lemma crcByte_xor_and_ff (c b e : Nat) :
    crcByte c ((b &&& 0xff) ^^^ e) = crcByte c (b ^^^ e) := by
  apply crcByte_congr
  rw [Nat.and_xor_distrib_right, Nat.and_xor_distrib_right, and_ff_and_ff]

/-! ## Injection, byte-list versions -/

lemma topByte_shl8 (e : Nat) :
    ((((e <<< 8) % 2 ^ 32) >>> 24) &&& 0xff) = ((e >>> 16) &&& 0xff) := by
  simp only [Nat.shiftLeft_eq, Nat.shiftRight_eq_div_pow, and_ff]
  norm_num
  omega

lemma topByte_shl16 (e : Nat) :
    ((((e <<< 16) % 2 ^ 32) >>> 24) &&& 0xff) = ((e >>> 8) &&& 0xff) := by
  simp only [Nat.shiftLeft_eq, Nat.shiftRight_eq_div_pow, and_ff]
  norm_num
  omega

lemma topByte_shl24 (e : Nat) :
    ((((e <<< 24) % 2 ^ 32) >>> 24) &&& 0xff) = (e &&& 0xff) := by
  simp only [Nat.shiftLeft_eq, Nat.shiftRight_eq_div_pow, and_ff]
  norm_num
  omega

/-- Injecting `e` into the register before one byte. -/
lemma cleverCRC_inject1 (c e b0 : Nat) :
    cleverCRC (c ^^^ e) [b0]
      = (cleverCRC c [b0 ^^^ ((e >>> 24) &&& 0xff)] ^^^ ((e <<< 8) % 2 ^ 32)) := by
  simp only [cleverCRC, List.foldl]
  rw [crcByte_inject]

/-- Injecting `e` into the register before two bytes. -/
lemma cleverCRC_inject2 (c e b0 b1 : Nat) :
    cleverCRC (c ^^^ e) [b0, b1]
      = (cleverCRC c [b0 ^^^ ((e >>> 24) &&& 0xff), b1 ^^^ ((e >>> 16) &&& 0xff)]
          ^^^ ((e <<< 16) % 2 ^ 32)) := by
  simp only [cleverCRC, List.foldl]
  rw [crcByte_inject, crcByte_inject]
  simp only [shl_mod_shl, Nat.reduceAdd]
  rw [topByte_shl8]

/-- Injecting `e` into the register before three bytes. -/
lemma cleverCRC_inject3 (c e b0 b1 b2 : Nat) :
    cleverCRC (c ^^^ e) [b0, b1, b2]
      = (cleverCRC c [b0 ^^^ ((e >>> 24) &&& 0xff), b1 ^^^ ((e >>> 16) &&& 0xff),
          b2 ^^^ ((e >>> 8) &&& 0xff)] ^^^ ((e <<< 24) % 2 ^ 32)) := by
  simp only [cleverCRC, List.foldl]
  rw [crcByte_inject, crcByte_inject, crcByte_inject]
  simp only [shl_mod_shl, Nat.reduceAdd]
  rw [topByte_shl8, topByte_shl16]

/-- Injecting `e` into the register before four bytes: the carried value is
entirely consumed, no residual remains. -/
lemma cleverCRC_inject4 (c e b0 b1 b2 b3 : Nat) :
    cleverCRC (c ^^^ e) [b0, b1, b2, b3]
      = cleverCRC c [b0 ^^^ ((e >>> 24) &&& 0xff), b1 ^^^ ((e >>> 16) &&& 0xff),
          b2 ^^^ ((e >>> 8) &&& 0xff), b3 ^^^ (e &&& 0xff)] := by
  simp only [cleverCRC, List.foldl]
  rw [crcByte_inject, crcByte_inject, crcByte_inject, crcByte_inject]
  simp only [shl_mod_shl, Nat.reduceAdd]
  rw [topByte_shl8, topByte_shl16, topByte_shl24, shl32_mod, Nat.xor_zero]

/-! ## Word-write lemmas -/

lemma xor_cancel_right (a b : Nat) : ((a ^^^ b) ^^^ a) = b := by
  rw [Nat.xor_comm a b, Nat.xor_assoc, Nat.xor_self, Nat.xor_zero]

lemma byte_xor (x y k : Nat) :
    ((x ^^^ y) >>> k) &&& 0xff = (((x >>> k) &&& 0xff) ^^^ ((y >>> k) &&& 0xff)) := by
  rw [xor_shr, Nat.and_xor_distrib_right]

lemma byte_xor0 (x y : Nat) :
    (x ^^^ y) &&& 0xff = ((x &&& 0xff) ^^^ (y &&& 0xff)) :=
  Nat.and_xor_distrib_right

/-- Writing `currentReading XOR u` to the peripheral is the same as clearing
the peripheral and writing `u`: the documented zero-clear idiom. -/
lemma crcWriteWord_cancel (P u : Nat) :
    crcWriteWord P (P ^^^ u) = crcWriteWord 0 u := by
  unfold crcWriteWord
  rw [byte_xor P u 24, byte_xor P u 16, byte_xor P u 8, byte_xor0 P u]
  have h := cleverCRC_inject4 0 P
    (((P >>> 24) &&& 0xff) ^^^ ((u >>> 24) &&& 0xff))
    (((P >>> 16) &&& 0xff) ^^^ ((u >>> 16) &&& 0xff))
    (((P >>> 8) &&& 0xff) ^^^ ((u >>> 8) &&& 0xff))
    ((P &&& 0xff) ^^^ (u &&& 0xff))
  rw [Nat.zero_xor] at h
  rw [h, xor_cancel_right, xor_cancel_right, xor_cancel_right, xor_cancel_right]

/-- Feeding a word assembled from four bytes equals feeding those bytes. -/
lemma crcWriteWord_wordBE (p b0 b1 b2 b3 : Nat) :
    crcWriteWord p (wordBE b0 b1 b2 b3) = cleverCRC p [b0, b1, b2, b3] := by
  unfold crcWriteWord
  rw [wordBE_byte0, wordBE_byte1, wordBE_byte2, wordBE_byte3]
  simp only [cleverCRC, List.foldl]
  rw [crcByte_and_ff, crcByte_and_ff, crcByte_and_ff, crcByte_and_ff]

/-- XORing the correction value into a data word before the write has the
same effect as XORing it into the register: the engine's first-word
substitution step is exact. -/
lemma inv_word_first (P E b0 b1 b2 b3 : Nat) :
    crcWriteWord P ((wordBE b0 b1 b2 b3) ^^^ E)
      = cleverCRC (P ^^^ E) [b0, b1, b2, b3] := by
  rw [cleverCRC_inject4]
  unfold crcWriteWord
  rw [byte_xor _ E 24, byte_xor _ E 16, byte_xor _ E 8, byte_xor0 _ E,
    wordBE_byte0, wordBE_byte1, wordBE_byte2, wordBE_byte3]
  simp only [cleverCRC, List.foldl]
  rw [crcByte_xor_and_ff, crcByte_xor_and_ff, crcByte_xor_and_ff, crcByte_xor_and_ff]

/-! ## Byte-lane leaf identities used by the sub-word corrector proof -/

lemma lane_shl8_hit (x : Nat) : (((x <<< 8) &&& 0xff00) >>> 8) &&& 0xff = x &&& 0xff := by
  rw [shl8_and_ff00]
  simp only [Nat.shiftRight_eq_div_pow, and_ff]
  norm_num

lemma lane_shl8_lo (x : Nat) : ((x <<< 8) &&& 0xff00) &&& 0xff = 0 := by
  rw [shl8_and_ff00]
  rw [and_ff]
  omega

lemma lane_shl8_16 (x : Nat) : (((x <<< 8) &&& 0xff00) >>> 16) &&& 0xff = 0 := by
  rw [shl8_and_ff00]
  simp only [Nat.shiftRight_eq_div_pow, and_ff]
  norm_num
  omega

lemma lane_shl8_24 (x : Nat) : (((x <<< 8) &&& 0xff00) >>> 24) &&& 0xff = 0 := by
  rw [shl8_and_ff00]
  simp only [Nat.shiftRight_eq_div_pow, and_ff]
  norm_num
  omega

lemma lane_shl16_hit (x : Nat) :
    (((x <<< 16) &&& 0xff0000) >>> 16) &&& 0xff = x &&& 0xff := by
  rw [shl16_and_ff0000]
  simp only [Nat.shiftRight_eq_div_pow, and_ff]
  norm_num

lemma lane_shl16_8 (x : Nat) : (((x <<< 16) &&& 0xff0000) >>> 8) &&& 0xff = 0 := by
  rw [shl16_and_ff0000]
  simp only [Nat.shiftRight_eq_div_pow, and_ff]
  norm_num
  omega

lemma lane_shl16_lo (x : Nat) : ((x <<< 16) &&& 0xff0000) &&& 0xff = 0 := by
  rw [shl16_and_ff0000]
  rw [and_ff]
  omega

lemma lane_shl16_24 (x : Nat) : (((x <<< 16) &&& 0xff0000) >>> 24) &&& 0xff = 0 := by
  rw [shl16_and_ff0000]
  simp only [Nat.shiftRight_eq_div_pow, and_ff]
  norm_num
  omega

lemma lane_ff_8 (x : Nat) : ((x &&& 0xff) >>> 8) &&& 0xff = 0 := by
  simp only [Nat.shiftRight_eq_div_pow, and_ff]
  norm_num

lemma lane_ff_16 (x : Nat) : ((x &&& 0xff) >>> 16) &&& 0xff = 0 := by
  simp only [Nat.shiftRight_eq_div_pow, and_ff]
  norm_num
  omega

lemma lane_ff_24 (x : Nat) : ((x &&& 0xff) >>> 24) &&& 0xff = 0 := by
  simp only [Nat.shiftRight_eq_div_pow, and_ff]
  norm_num
  omega

lemma lane_ffff_8 (x : Nat) :
    (((x >>> 16) &&& 0xffff) >>> 8) &&& 0xff = (x >>> 24) &&& 0xff := by
  simp only [Nat.shiftRight_eq_div_pow, and_ff, and_ffff]
  norm_num
  omega

lemma lane_ffff_lo (x : Nat) :
    ((x >>> 16) &&& 0xffff) &&& 0xff = (x >>> 16) &&& 0xff := by
  simp only [Nat.shiftRight_eq_div_pow, and_ff, and_ffff]
  omega

lemma lane_ffff_16 (x : Nat) : (((x >>> 16) &&& 0xffff) >>> 16) &&& 0xff = 0 := by
  simp only [Nat.shiftRight_eq_div_pow, and_ff, and_ffff]
  norm_num

lemma lane_ffff_24 (x : Nat) : (((x >>> 16) &&& 0xffff) >>> 24) &&& 0xff = 0 := by
  simp only [Nat.shiftRight_eq_div_pow, and_ff, and_ffff]
  norm_num
  omega

lemma lane_ffffff_16 (x : Nat) :
    (((x >>> 8) &&& 0xffffff) >>> 16) &&& 0xff = (x >>> 24) &&& 0xff := by
  simp only [Nat.shiftRight_eq_div_pow, and_ff, and_ffffff]
  norm_num
  omega

lemma lane_ffffff_8 (x : Nat) :
    (((x >>> 8) &&& 0xffffff) >>> 8) &&& 0xff = (x >>> 16) &&& 0xff := by
  simp only [Nat.shiftRight_eq_div_pow, and_ff, and_ffffff]
  norm_num
  omega

lemma lane_ffffff_lo (x : Nat) :
    ((x >>> 8) &&& 0xffffff) &&& 0xff = (x >>> 8) &&& 0xff := by
  simp only [Nat.shiftRight_eq_div_pow, and_ff, and_ffffff]
  omega

lemma lane_ffffff_24 (x : Nat) : (((x >>> 8) &&& 0xffffff) >>> 24) &&& 0xff = 0 := by
  simp only [Nat.shiftRight_eq_div_pow, and_ff, and_ffffff]
  norm_num

lemma crcByte00 : crcByte 0 0 = 0 := by decide

/-! ## Evaluation of the sub-word corrector, case by case -/

lemma lt4_eval_0 (s : CRCState) : crc32lt4bytes s [] = s := rfl

lemma lt4_eval_1 (P E b0 : Nat) :
    crc32lt4bytes ⟨P, E⟩ [b0]
      = ⟨crcWriteWord P ((P ^^^ (b0 &&& 0xff)) ^^^ (((P ^^^ E) >>> 24) &&& 0xff)),
          ((P ^^^ E) <<< 8) % 2 ^ 32⟩ := rfl

lemma lt4_eval_2 (P E b0 b1 : Nat) :
    crc32lt4bytes ⟨P, E⟩ [b0, b1]
      = ⟨crcWriteWord P
          ((P ^^^ (((b0 <<< 8) &&& 0xff00) ^^^ ((b1 <<< 0) &&& 0xff)))
            ^^^ (((P ^^^ E) >>> 16) &&& 0xffff)),
          ((P ^^^ E) <<< 16) % 2 ^ 32⟩ := rfl

lemma lt4_eval_3 (P E b0 b1 b2 : Nat) (tl : List Nat) :
    crc32lt4bytes ⟨P, E⟩ (b0 :: b1 :: b2 :: tl)
      = ⟨crcWriteWord P
          (((((P ^^^ ((b0 <<< 16) &&& 0xff0000)) ^^^ ((b1 <<< 8) &&& 0xff00))
              ^^^ ((b2 <<< 0) &&& 0xff)) ^^^ 0)
            ^^^ (((P ^^^ E) >>> 8) &&& 0xffffff)),
          ((P ^^^ E) <<< 24) % 2 ^ 32⟩ := rfl

/-! ## The sub-word corrector preserves the invariant -/

lemma inv_lt4_1 (P E b0 : Nat) :
    ((crc32lt4bytes ⟨P, E⟩ [b0]).periphCRC ^^^ (crc32lt4bytes ⟨P, E⟩ [b0]).extraCRC)
      = cleverCRC (P ^^^ E) [b0] := by
  rw [lt4_eval_1]
  dsimp only
  generalize (P ^^^ E) = C
  simp only [Nat.xor_assoc]
  rw [crcWriteWord_cancel]
  unfold crcWriteWord
  simp only [byte_xor, byte_xor0]
  simp only [lane_ff_24, lane_ff_16, lane_ff_8, and_ff_and_ff,
    Nat.xor_zero, Nat.zero_xor]
  have hR := cleverCRC_inject1 0 C b0
  rw [Nat.zero_xor] at hR
  rw [hR]
  congr 1
  simp only [cleverCRC, List.foldl]
  rw [crcByte00, crcByte00, crcByte00]
  exact crcByte_xor_and_ff 0 b0 _

lemma inv_lt4_2 (P E b0 b1 : Nat) :
    ((crc32lt4bytes ⟨P, E⟩ [b0, b1]).periphCRC
        ^^^ (crc32lt4bytes ⟨P, E⟩ [b0, b1]).extraCRC)
      = cleverCRC (P ^^^ E) [b0, b1] := by
  rw [lt4_eval_2]
  dsimp only
  generalize (P ^^^ E) = C
  simp only [Nat.xor_assoc]
  rw [crcWriteWord_cancel]
  unfold crcWriteWord
  simp only [byte_xor, byte_xor0]
  simp only [Nat.shiftLeft_zero, lane_shl8_24, lane_shl8_16, lane_shl8_hit,
    lane_shl8_lo, lane_ff_24, lane_ff_16, lane_ff_8, and_ff_and_ff,
    lane_ffff_24, lane_ffff_16, lane_ffff_8, lane_ffff_lo,
    Nat.xor_zero, Nat.zero_xor]
  have hR := cleverCRC_inject2 0 C b0 b1
  rw [Nat.zero_xor] at hR
  rw [hR]
  congr 1
  simp only [cleverCRC, List.foldl]
  rw [crcByte00, crcByte00]
  rw [crcByte_xor_and_ff 0 b0]
  exact crcByte_xor_and_ff _ b1 _

lemma inv_lt4_3 (P E b0 b1 b2 : Nat) :
    ((crc32lt4bytes ⟨P, E⟩ [b0, b1, b2]).periphCRC
        ^^^ (crc32lt4bytes ⟨P, E⟩ [b0, b1, b2]).extraCRC)
      = cleverCRC (P ^^^ E) [b0, b1, b2] := by
  rw [lt4_eval_3]
  dsimp only
  generalize (P ^^^ E) = C
  simp only [Nat.xor_zero, Nat.xor_assoc]
  rw [crcWriteWord_cancel]
  unfold crcWriteWord
  simp only [byte_xor, byte_xor0]
  simp only [Nat.shiftLeft_zero, lane_shl16_24, lane_shl16_hit, lane_shl16_8,
    lane_shl16_lo, lane_shl8_24, lane_shl8_16, lane_shl8_hit, lane_shl8_lo,
    lane_ff_24, lane_ff_16, lane_ff_8, and_ff_and_ff,
    lane_ffffff_24, lane_ffffff_16, lane_ffffff_8, lane_ffffff_lo,
    Nat.xor_zero, Nat.zero_xor]
  have hR := cleverCRC_inject3 0 C b0 b1 b2
  rw [Nat.zero_xor] at hR
  rw [hR]
  congr 1
  simp only [cleverCRC, List.foldl]
  rw [crcByte00]
  rw [crcByte_xor_and_ff 0 b0]
  rw [crcByte_xor_and_ff _ b1]
  exact crcByte_xor_and_ff _ b2 _

/-- The sub-word corrector preserves the central invariant for any
0-to-3-byte input. -/
lemma inv_lt4 (s : CRCState) (bs : List Nat) (h : bs.length ≤ 3) :
    ((crc32lt4bytes s bs).periphCRC ^^^ (crc32lt4bytes s bs).extraCRC)
      = cleverCRC (s.periphCRC ^^^ s.extraCRC) bs := by
  obtain ⟨P, E⟩ := s
  match bs with
  | [] => rfl
  | [b0] => exact inv_lt4_1 P E b0
  | [b0, b1] => exact inv_lt4_2 P E b0 b1
  | [b0, b1, b2] => exact inv_lt4_3 P E b0 b1 b2
  | _ :: _ :: _ :: _ :: _ => simp at h

/-! ## The word loop and the whole of `crc32process` -/

lemma cleverCRC_append (c : Nat) (xs ys : List Nat) :
    cleverCRC c (xs ++ ys) = cleverCRC (cleverCRC c xs) ys := by
  simp [cleverCRC]

/-- The word loop consumes a word-multiple prefix of its input, feeding it
byte by byte, and returns the remaining fewer-than-four bytes. -/
lemma feedWords_spec : ∀ (d : List Nat) (p : Nat),
    ∃ pre, d = pre ++ (feedWords p d).2 ∧ (feedWords p d).1 = cleverCRC p pre
      ∧ (feedWords p d).2.length < 4
  | [], p => ⟨[], rfl, rfl, by simp [feedWords]⟩
  | [a], p => ⟨[], rfl, rfl, by simp [feedWords]⟩
  | [a, b], p => ⟨[], rfl, rfl, by simp [feedWords]⟩
  | [a, b, c], p => ⟨[], rfl, rfl, by simp [feedWords]⟩
  | b0 :: b1 :: b2 :: b3 :: rest, p => by
      obtain ⟨pre, h1, h2, h3⟩ :=
        feedWords_spec rest (crcWriteWord p (wordBE b0 b1 b2 b3))
      have hred : feedWords p (b0 :: b1 :: b2 :: b3 :: rest)
          = feedWords (crcWriteWord p (wordBE b0 b1 b2 b3)) rest := rfl
      refine ⟨b0 :: b1 :: b2 :: b3 :: pre, ?_, ?_, ?_⟩
      · rw [hred]
        simp only [List.cons_append]
        rw [← h1]
      · rw [hred, h2, crcWriteWord_wordBE]
        rfl
      · rw [hred]
        exact h3

/-- `crc32bulk` preserves the central invariant for inputs of any length. -/
lemma inv_bulk (s : CRCState) (d : List Nat) :
    ((crc32bulk s d).periphCRC ^^^ (crc32bulk s d).extraCRC)
      = cleverCRC (s.periphCRC ^^^ s.extraCRC) d := by
  match d with
  | [] => exact inv_lt4 s [] (by simp)
  | [a] => exact inv_lt4 s [a] (by simp)
  | [a, b] => exact inv_lt4 s [a, b] (by simp)
  | [a, b, c] => exact inv_lt4 s [a, b, c] (by simp)
  | b0 :: b1 :: b2 :: b3 :: rest2 =>
      have hred : crc32bulk s (b0 :: b1 :: b2 :: b3 :: rest2)
          = crc32lt4bytes
              ⟨(feedWords (crcWriteWord s.periphCRC
                  (((wordBE b0 b1 b2 b3) ^^^ s.extraCRC))) rest2).1, 0⟩
              (feedWords (crcWriteWord s.periphCRC
                  (((wordBE b0 b1 b2 b3) ^^^ s.extraCRC))) rest2).2 := rfl
      rw [hred]
      obtain ⟨pre, h1, h2, h3⟩ :=
        feedWords_spec rest2
          (crcWriteWord s.periphCRC (((wordBE b0 b1 b2 b3) ^^^ s.extraCRC)))
      rw [inv_lt4 _ _ (by omega)]
      dsimp only
      rw [Nat.xor_zero, h2, ← cleverCRC_append, ← h1, inv_word_first]
      rw [show (b0 :: b1 :: b2 :: b3 :: rest2) = [b0, b1, b2, b3] ++ rest2 from rfl,
        cleverCRC_append]

/-- `crc32process` preserves the central invariant: after the call,
(peripheral reading) XOR `extraCRC` is the bit-serial CRC of the previous
true CRC extended by exactly the bytes of this call, for every alignment. -/
lemma inv_process (s : CRCState) (addr : Nat) (d : List Nat) :
    ((crc32process s addr d).periphCRC ^^^ (crc32process s addr d).extraCRC)
      = cleverCRC (s.periphCRC ^^^ s.extraCRC) d := by
  have hK : (d.take (if addr % 4 = 0 then 0
      else min (4 - addr % 4) d.length)).length ≤ 3 := by
    rw [List.length_take]
    split_ifs with h
    · omega
    · have h4 : addr % 4 < 4 := Nat.mod_lt addr (by norm_num)
      omega
  simp only [crc32process]
  rw [inv_bulk, inv_lt4 s _ hK, ← cleverCRC_append, List.take_append_drop]

/-- A whole sequence of `crc32process` calls from any starting state
accumulates the concatenation of all fed byte ranges. -/
lemma inv_calls : ∀ (calls : List (Nat × List Nat)) (s : CRCState),
    (((calls.foldl (fun t c => crc32process t c.1 c.2) s).periphCRC)
        ^^^ ((calls.foldl (fun t c => crc32process t c.1 c.2) s).extraCRC))
      = cleverCRC (s.periphCRC ^^^ s.extraCRC) (calls.map Prod.snd).flatten
  | [], s => by simp [cleverCRC]
  | c :: rest, s => by
      have hred : (c :: rest).foldl (fun t c => crc32process t c.1 c.2) s
          = rest.foldl (fun t c => crc32process t c.1 c.2) (crc32process s c.1 c.2) := rfl
      rw [hred, inv_calls rest (crc32process s c.1 c.2), inv_process]
      rw [show ((c :: rest).map Prod.snd).flatten
          = c.2 ++ (rest.map Prod.snd).flatten by simp]
      rw [cleverCRC_append]

lemma xor_cancel_left (a b : Nat) : (a ^^^ (a ^^^ b)) = b := by
  rw [← Nat.xor_assoc, Nat.xor_self, Nat.zero_xor]

/-- The state right after `crc32start I` represents the true CRC `I`. -/
lemma inv_start (i : Nat) :
    ((crc32start i).periphCRC ^^^ (crc32start i).extraCRC) = i :=
  xor_cancel_left 0xffffffff i

/-- The central invariant over a whole session: after `crc32start I` and any
sequence of `crc32process` calls, (peripheral reading) XOR `extraCRC` equals
the bit-serial CRC of all fed bytes seeded with `I`. -/
lemma inv_session (i : Nat) (calls : List (Nat × List Nat)) :
    (((calls.foldl (fun t c => crc32process t c.1 c.2) (crc32start i)).periphCRC)
        ^^^ ((calls.foldl (fun t c => crc32process t c.1 c.2) (crc32start i)).extraCRC))
      = cleverCRC i (calls.map Prod.snd).flatten := by
  rw [inv_calls calls (crc32start i), inv_start]

/-! ## Claim theorems -/

/-- C1: for every byte sequence, every initial value, and every partitioning
of the sequence into consecutive ranges fed by separate `crc32process` calls
at any start alignments, the value returned by `crc32finish` after
`crc32start i` and those calls equals the bit-serial shift-register CRC
(`cleverCRC`, polynomial 0x04C11DB7, MSB-first) of the whole sequence seeded
with `i` — independent of split points and alignment. -/
theorem claim_C1_refinement (i : Nat) (calls : List (Nat × List Nat)) :
    runSession i calls = cleverCRC i (calls.map Prod.snd).flatten := by
  unfold runSession crc32finish
  exact inv_session i calls

/-- C2: at every boundary between the operations of one session (after
`crc32start`, after each `crc32process` call — i.e. after any sequence
`calls` of calls — and hence at `crc32finish`), the accumulator reading
XOR the correction value `extraCRC` equals the bit-serial CRC of all bytes
fed so far, seeded with the session's initial value. -/
theorem claim_C2_invariant (i : Nat) (calls : List (Nat × List Nat)) :
    (((calls.foldl (fun t c => crc32process t c.1 c.2) (crc32start i)).periphCRC)
        ^^^ ((calls.foldl (fun t c => crc32process t c.1 c.2) (crc32start i)).extraCRC))
      = cleverCRC i (calls.map Prod.snd).flatten :=
  inv_session i calls

/-- C6: `crc32start i` always succeeds for every `i`: it resets the
accumulator register to the fixed device value `R0 = 0xffffffff` and sets
the correction value to `R0 XOR i`, with no other effect (the resulting
state is exactly this pair). -/
theorem claim_C6_start (i : Nat) :
    crc32start i = ⟨0xffffffff, (0xffffffff ^^^ i)⟩ := rfl

/-- C7: `crc32finish` returns (accumulator reading) XOR (correction value),
and mutates nothing: the state after the call is the state before it. -/
theorem claim_C7_finish (s : CRCState) :
    (crc32finish s).1 = (s.periphCRC ^^^ s.extraCRC) ∧ (crc32finish s).2 = s :=
  ⟨rfl, rfl⟩

/-- C8: for every initial value `i`, `crc32finish` immediately after
`crc32start i` with no intervening `crc32process` call returns exactly `i`. -/
theorem claim_C8_empty (i : Nat) : (crc32finish (crc32start i)).1 = i :=
  inv_start i

set_option maxRecDepth 100000 in
/-- C9: with initial value `0xffffffff` and the 11 bytes
`0x12 0x34 0x56 0x78 0x9A 0xBC 0xDE 0xF0 0xA6 0xB7 0xC8` fed word-aligned,
the accumulator reading after the two full (byte-reversed) words is
`0x7D24A31B`, and after the 3-byte tail correction `crc32finish` returns
`0xF7832A2F`. -/
theorem claim_C9_worked :
    crcWriteWord (crcWriteWord 0xffffffff
        ((wordBE 0x12 0x34 0x56 0x78) ^^^ (crc32start 0xffffffff).extraCRC))
        (wordBE 0x9A 0xBC 0xDE 0xF0) = 0x7D24A31B
      ∧ (crc32finish (crc32process (crc32start 0xffffffff) 0
          [0x12, 0x34, 0x56, 0x78, 0x9A, 0xBC, 0xDE, 0xF0, 0xA6, 0xB7, 0xC8])).1
          = 0xF7832A2F := by
  constructor
  · decide
  · decide

/-- C3: for every `n ∈ {1,2,3}` and every 32-bit engine state,
`crc32lt4bytes` computes `oldTrueCRC = reading XOR extraCRC`, writes exactly
one full word to the accumulator with no reset beforehand — the written
word XOR the prior reading equals `dataWord XOR (oldTrueCRC >> (32-8n))`,
the prior reading being reused as the zero-clear idiom — and sets the new
correction value to `oldTrueCRC << 8n` (truncated to 32 bits). -/
theorem claim_C3_subword (s : CRCState) (bs : List Nat) (n : Nat)
    (hn : bs.length = n) (h1 : 1 ≤ n) (h3 : n ≤ 3)
    (hP : s.periphCRC < 2 ^ 32) (hE : s.extraCRC < 2 ^ 32) :
    crc32lt4bytes s bs
      = ⟨crcWriteWord s.periphCRC
           (s.periphCRC ^^^ (dataBytesOf bs
             ^^^ ((s.periphCRC ^^^ s.extraCRC) >>> (32 - 8 * n)))),
         ((s.periphCRC ^^^ s.extraCRC) <<< (8 * n)) % 2 ^ 32⟩ := by
  obtain ⟨P, E⟩ := s
  dsimp only at *
  have hC : (P ^^^ E) < 2 ^ 32 := Nat.xor_lt_two_pow hP hE
  subst hn
  rcases bs with _ | ⟨b0, _ | ⟨b1, _ | ⟨b2, _ | ⟨b3, tl⟩⟩⟩⟩
  · simp at h1
  · have hsh : ((P ^^^ E) >>> 24) &&& 0xff = (P ^^^ E) >>> 24 := by
      rw [and_ff]
      apply Nat.mod_eq_of_lt
      rw [Nat.shiftRight_eq_div_pow]
      norm_num at hC ⊢
      omega
    rw [lt4_eval_1, hsh]
    norm_num [dataBytesOf, Nat.xor_assoc]
  · have hsh : ((P ^^^ E) >>> 16) &&& 0xffff = (P ^^^ E) >>> 16 := by
      rw [and_ffff]
      apply Nat.mod_eq_of_lt
      rw [Nat.shiftRight_eq_div_pow]
      norm_num at hC ⊢
      omega
    rw [lt4_eval_2, hsh]
    norm_num [dataBytesOf, Nat.xor_assoc]
  · have hsh : ((P ^^^ E) >>> 8) &&& 0xffffff = (P ^^^ E) >>> 8 := by
      rw [and_ffffff]
      apply Nat.mod_eq_of_lt
      rw [Nat.shiftRight_eq_div_pow]
      norm_num at hC ⊢
      omega
    rw [lt4_eval_3, hsh]
    norm_num [dataBytesOf, Nat.xor_assoc]
  · simp at h3

/-- Witness for C3 at a concrete state and two bytes. -/
theorem claim_C3_subword_witness :
    crc32lt4bytes ⟨5, 7⟩ [17, 34]
      = ⟨crcWriteWord 5 (5 ^^^ (dataBytesOf [17, 34] ^^^ ((5 ^^^ 7) >>> 16))),
         ((5 ^^^ (7 : Nat)) <<< 16) % 2 ^ 32⟩ :=
  claim_C3_subword ⟨5, 7⟩ [17, 34] 2 rfl (by decide) (by decide)
    (by decide) (by decide)

/-! ## Claim C4 -/

/-- XOR of values occupying disjoint bit ranges is addition. -/
lemma xor_disjoint (a b k : Nat) (hb : b < 2 ^ k) :
    ((a * 2 ^ k) ^^^ b) = a * 2 ^ k + b := by
  have hadd := Nat.mul_add_lt_is_or hb a
  rw [Nat.mul_comm (2 ^ k) a] at hadd
  rw [hadd]
  apply Nat.eq_of_testBit_eq
  intro i
  simp only [Nat.testBit_xor, Nat.testBit_or]
  rcases lt_or_ge i k with hi | hi
  · have h0 : (a * 2 ^ k).testBit i = false := by
      rw [Nat.mul_comm, Nat.testBit_mul_pow_two]
      simp [show ¬ (k ≤ i) by omega]
    simp [h0]
  · have h0 : b.testBit i = false :=
      Nat.testBit_lt_two_pow
        (lt_of_lt_of_le hb (Nat.pow_le_pow_right (by norm_num) hi))
    simp [h0]

lemma xor_disjoint256 (a b : Nat) (hb : b < 256) : ((a * 256) ^^^ b) = a * 256 + b := by
  have h := xor_disjoint a b 8 (by norm_num; omega)
  norm_num at h
  exact h

lemma xor_disjoint65536 (a b : Nat) (hb : b < 65536) :
    ((a * 65536) ^^^ b) = a * 65536 + b := by
  have h := xor_disjoint a b 16 (by norm_num; omega)
  norm_num at h
  exact h

set_option maxRecDepth 100000 in
/-- C4, counterexample: the claim says `dataWord` places the bytes in the
most-significant byte positions, but the code places them in the
LEAST-significant positions: already for the single byte `0x12` the word
the code forms is `0x00000012`, not `0x12000000`, and the word actually
written by `crc32lt4bytes` is the CRC input for `0x00000012`. -/
theorem claim_C4_counterexample :
    dataBytesOf [0x12] ≠ dataWordSpecMSB [0x12]
      ∧ dataBytesOf [0x12] = 0x12
      ∧ dataWordSpecMSB [0x12] = 0x12000000
      ∧ (crc32lt4bytes ⟨0, 0⟩ [0x12]).periphCRC = crcWriteWord 0 (dataBytesOf [0x12])
      ∧ (crc32lt4bytes ⟨0, 0⟩ [0x12]).periphCRC
          ≠ crcWriteWord 0 (dataWordSpecMSB [0x12]) := by
  refine ⟨by decide, by decide, by decide, by decide, by decide⟩

/-- C4, amended: in the sub-word corrector, for every `n ∈ {1,2,3}`,
`dataWord` is formed by placing `bytes[0..n-1]` into the `n`
LEAST-significant byte positions of a 32-bit word (byte 0 the most
significant among the `n`), with zero in all other byte positions. -/
theorem claim_C4_amended (bs : List Nat) (h1 : 1 ≤ bs.length)
    (h3 : bs.length ≤ 3) (hb : ∀ b ∈ bs, b < 256) :
    dataBytesOf bs = bs.foldl (fun a b => a * 256 + b) 0
      ∧ dataBytesOf bs < 2 ^ (8 * bs.length) := by
  rcases bs with _ | ⟨b0, _ | ⟨b1, _ | ⟨b2, _ | ⟨b3, tl⟩⟩⟩⟩
  · simp at h1
  · have hb0 : b0 < 256 := hb b0 (by simp)
    constructor
    · simp [dataBytesOf, and_ff, List.foldl, Nat.mod_eq_of_lt hb0]
    · simp only [dataBytesOf, and_ff, List.length_cons, List.length_nil]
      norm_num
      omega
  · have hb0 : b0 < 256 := hb b0 (by simp)
    have hb1 : b1 < 256 := hb b1 (by simp)
    have he : dataBytesOf [b0, b1] = b0 * 256 + b1 := by
      simp only [dataBytesOf, shl8_and_ff00, Nat.shiftLeft_zero, and_ff,
        Nat.mod_eq_of_lt hb0, Nat.mod_eq_of_lt hb1]
      exact xor_disjoint256 b0 b1 hb1
    constructor
    · rw [he]
      simp [List.foldl]
    · rw [he]
      norm_num
      omega
  · have hb0 : b0 < 256 := hb b0 (by simp)
    have hb1 : b1 < 256 := hb b1 (by simp)
    have hb2 : b2 < 256 := hb b2 (by simp)
    have he : dataBytesOf [b0, b1, b2] = (b0 * 256 + b1) * 256 + b2 := by
      simp only [dataBytesOf, shl16_and_ff0000, shl8_and_ff00, Nat.shiftLeft_zero,
        and_ff, Nat.mod_eq_of_lt hb0, Nat.mod_eq_of_lt hb1, Nat.mod_eq_of_lt hb2]
      rw [xor_disjoint65536 b0 (b1 * 256) (by omega)]
      rw [show b0 * 65536 + b1 * 256 = (b0 * 256 + b1) * 256 by ring]
      exact xor_disjoint256 _ b2 hb2
    constructor
    · rw [he]
      simp [List.foldl]
    · rw [he]
      norm_num
      omega
  · simp at h3

/-- Witness for the amended C4 at two concrete bytes. -/
theorem claim_C4_amended_witness :
    dataBytesOf [7, 9] = ([7, 9] : List Nat).foldl (fun a b => a * 256 + b) 0
      ∧ dataBytesOf [7, 9] < 2 ^ (8 * ([7, 9] : List Nat).length) :=
  claim_C4_amended [7, 9] (by decide) (by decide) (by decide)

/-! ## Claim C5 -/

set_option maxRecDepth 100000 in
/-- C5, counterexample: in a session whose first feed goes through the
sub-word corrector, the first word of the session is written by
`crc32lt4bytes` (the peripheral changes), and right after that first write
the correction value is NOT zero — so the correction value is not consumed
once and for all by the session's first written word. -/
theorem claim_C5_counterexample :
    ((crc32process (crc32start 0x12345678) 2 [0xAA, 0xBB]).extraCRC ≠ 0)
      ∧ ((crc32process (crc32start 0x12345678) 2 [0xAA, 0xBB]).periphCRC
          ≠ (crc32start 0x12345678).periphCRC) := by
  refine ⟨by decide, by decide⟩

/-- The word-loop leftover length is the input length modulo 4. -/
lemma feedWords_mod4 : ∀ (d : List Nat) (p : Nat),
    (feedWords p d).2.length % 4 = d.length % 4
  | [], _ => rfl
  | [_], _ => rfl
  | [_, _], _ => rfl
  | [_, _, _], _ => rfl
  | b0 :: b1 :: b2 :: b3 :: rest, p => by
      have hred : feedWords p (b0 :: b1 :: b2 :: b3 :: rest)
          = feedWords (crcWriteWord p (wordBE b0 b1 b2 b3)) rest := rfl
      rw [hred, feedWords_mod4 rest _]
      simp only [List.length_cons]
      omega

/-- C5, amended: within each word-aligned, word-multiple `crc32process`
call, the correction value is XORed into the first transferred word only
and is zero when the call returns; once the correction value is zero, such
a call writes every word unmodified — it is exactly the plain word feed
(`feedWords`), with nothing XORed into any written word. -/
theorem claim_C5_amended (s : CRCState) (addr : Nat) (d : List Nat)
    (halign : addr % 4 = 0) (hlen : d.length % 4 = 0) :
    ((d ≠ [] → (crc32process s addr d).extraCRC = 0)
      ∧ (s.extraCRC = 0
          → crc32process s addr d = ⟨(feedWords s.periphCRC d).1, 0⟩)) := by
  have hproc : crc32process s addr d = crc32bulk s d := by
    simp [crc32process, halign, lt4_eval_0]
  rw [hproc]
  rcases d with _ | ⟨b0, _ | ⟨b1, _ | ⟨b2, _ | ⟨b3, rest2⟩⟩⟩⟩
  · refine ⟨fun h => absurd rfl h, fun he => ?_⟩
    obtain ⟨P, E⟩ := s
    dsimp only at he
    subst he
    rfl
  · simp at hlen
  · simp at hlen
  · simp at hlen
  · set p1 := crcWriteWord s.periphCRC ((wordBE b0 b1 b2 b3) ^^^ s.extraCRC) with hp1
    have hred : crc32bulk s (b0 :: b1 :: b2 :: b3 :: rest2)
        = crc32lt4bytes ⟨(feedWords p1 rest2).1, 0⟩ (feedWords p1 rest2).2 := rfl
    obtain ⟨pre, h1, h2, h3⟩ := feedWords_spec rest2 p1
    have hm : (feedWords p1 rest2).2.length % 4 = rest2.length % 4 :=
      feedWords_mod4 rest2 p1
    have hr0 : rest2.length % 4 = 0 := by
      simp only [List.length_cons] at hlen
      omega
    have hnil : (feedWords p1 rest2).2 = [] := by
      have hz : (feedWords p1 rest2).2.length = 0 := by omega
      exact List.eq_nil_of_length_eq_zero hz
    constructor
    · intro _
      rw [hred, hnil, lt4_eval_0]
    · intro he
      rw [hred, hnil, lt4_eval_0]
      have hfw : feedWords s.periphCRC (b0 :: b1 :: b2 :: b3 :: rest2)
          = feedWords (crcWriteWord s.periphCRC (wordBE b0 b1 b2 b3)) rest2 := rfl
      rw [hfw, hp1, he, Nat.xor_zero]

/-- Witness for the amended C5 on one aligned word with correction zero. -/
theorem claim_C5_amended_witness :
    ((([1, 2, 3, 4] : List Nat) ≠ []
        → (crc32process ⟨9, 0⟩ 0 [1, 2, 3, 4]).extraCRC = 0)
      ∧ ((⟨9, 0⟩ : CRCState).extraCRC = 0
          → crc32process ⟨9, 0⟩ 0 [1, 2, 3, 4] = ⟨(feedWords 9 [1, 2, 3, 4]).1, 0⟩)) :=
  claim_C5_amended ⟨9, 0⟩ 0 [1, 2, 3, 4] (by decide) (by decide)

/-! ## Claim C10 -/

set_option maxRecDepth 100000 in
/-- Decomposition of the bulk phase: writing the first word with the
correction value XORed in and zeroing the correction is a prefix of the
computation; the rest of the call continues from that state. -/
lemma bulk_step (s : CRCState) (b0 b1 b2 b3 : Nat) (r : List Nat) :
    crc32bulk s (b0 :: b1 :: b2 :: b3 :: r)
      = crc32bulk
          ⟨crcWriteWord s.periphCRC ((wordBE b0 b1 b2 b3) ^^^ s.extraCRC), 0⟩ r := by
  match r with
  | [] => rfl
  | [_] => rfl
  | [_, _] => rfl
  | [_, _, _] => rfl
  | c0 :: c1 :: c2 :: c3 :: r2 =>
      have e1 : crc32bulk s (b0 :: b1 :: b2 :: b3 :: c0 :: c1 :: c2 :: c3 :: r2)
          = crc32lt4bytes
              ⟨(feedWords (crcWriteWord (crcWriteWord s.periphCRC
                  ((wordBE b0 b1 b2 b3) ^^^ s.extraCRC)) (wordBE c0 c1 c2 c3)) r2).1, 0⟩
              (feedWords (crcWriteWord (crcWriteWord s.periphCRC
                  ((wordBE b0 b1 b2 b3) ^^^ s.extraCRC)) (wordBE c0 c1 c2 c3)) r2).2 := rfl
      have e2 : crc32bulk
            ⟨crcWriteWord s.periphCRC ((wordBE b0 b1 b2 b3) ^^^ s.extraCRC), 0⟩
            (c0 :: c1 :: c2 :: c3 :: r2)
          = crc32lt4bytes
              ⟨(feedWords (crcWriteWord (crcWriteWord s.periphCRC
                  ((wordBE b0 b1 b2 b3) ^^^ s.extraCRC)) ((wordBE c0 c1 c2 c3) ^^^ 0)) r2).1, 0⟩
              (feedWords (crcWriteWord (crcWriteWord s.periphCRC
                  ((wordBE b0 b1 b2 b3) ^^^ s.extraCRC)) ((wordBE c0 c1 c2 c3) ^^^ 0)) r2).2 := rfl
      rw [e1, e2, Nat.xor_zero]

/-- C10: in every `crc32process` call whose post-head remainder has at
least one full word — not only the call containing the session's first
word — the correction value held at the start of the bulk phase (state
`s1`, possibly made nonzero again by the head sub-word correction) is
XORed into that call's first transferred word and then set to zero, and
this step preserves the invariant: the new reading (XOR the now-zero
correction) is the bit-serial CRC of the four word bytes applied to the
old true CRC `s1.periphCRC XOR s1.extraCRC`. -/
theorem claim_C10_bulk_first_word (s s1 : CRCState) (addr : Nat)
    (d : List Nat) (b0 b1 b2 b3 : Nat) (r : List Nat)
    (hd : d.drop (if addr % 4 = 0 then 0 else min (4 - addr % 4) d.length)
        = b0 :: b1 :: b2 :: b3 :: r)
    (hs1 : crc32lt4bytes s
        (d.take (if addr % 4 = 0 then 0 else min (4 - addr % 4) d.length)) = s1) :
    (crc32process s addr d
        = crc32bulk
            ⟨crcWriteWord s1.periphCRC ((wordBE b0 b1 b2 b3) ^^^ s1.extraCRC), 0⟩ r)
      ∧ ((crcWriteWord s1.periphCRC ((wordBE b0 b1 b2 b3) ^^^ s1.extraCRC)) ^^^ 0)
          = cleverCRC (s1.periphCRC ^^^ s1.extraCRC) [b0, b1, b2, b3] := by
  constructor
  · simp only [crc32process]
    rw [hd, hs1, bulk_step]
  · rw [Nat.xor_zero]
    exact inv_word_first s1.periphCRC s1.extraCRC b0 b1 b2 b3

set_option maxRecDepth 100000 in
/-- Witness for C10 on a concrete unaligned call whose head correction
re-arms the correction value before the bulk word. -/
theorem claim_C10_bulk_first_word_witness :
    (([5, 6, 1, 2, 3, 4] : List Nat).drop
        (if (2 : Nat) % 4 = 0 then 0 else min (4 - 2 % 4) ([5, 6, 1, 2, 3, 4] : List Nat).length)
        = 1 :: 2 :: 3 :: 4 :: [])
      ∧ (crc32lt4bytes ⟨7, 11⟩ (([5, 6, 1, 2, 3, 4] : List Nat).take
          (if (2 : Nat) % 4 = 0 then 0 else min (4 - 2 % 4) ([5, 6, 1, 2, 3, 4] : List Nat).length))
          = crc32lt4bytes ⟨7, 11⟩ [5, 6])
      ∧ (crc32process ⟨7, 11⟩ 2 [5, 6, 1, 2, 3, 4]
          = crc32bulk
              ⟨crcWriteWord (crc32lt4bytes ⟨7, 11⟩ [5, 6]).periphCRC
                ((wordBE 1 2 3 4) ^^^ (crc32lt4bytes ⟨7, 11⟩ [5, 6]).extraCRC), 0⟩ [])
      ∧ (((crcWriteWord (crc32lt4bytes ⟨7, 11⟩ [5, 6]).periphCRC
            ((wordBE 1 2 3 4) ^^^ (crc32lt4bytes ⟨7, 11⟩ [5, 6]).extraCRC)) ^^^ 0)
          = cleverCRC ((crc32lt4bytes ⟨7, 11⟩ [5, 6]).periphCRC
              ^^^ (crc32lt4bytes ⟨7, 11⟩ [5, 6]).extraCRC) [1, 2, 3, 4]) := by
  refine ⟨by decide, by decide, ?_, ?_⟩
  · exact (claim_C10_bulk_first_word ⟨7, 11⟩ (crc32lt4bytes ⟨7, 11⟩ [5, 6]) 2
      [5, 6, 1, 2, 3, 4] 1 2 3 4 [] (by decide) (by decide)).1
  · exact (claim_C10_bulk_first_word ⟨7, 11⟩ (crc32lt4bytes ⟨7, 11⟩ [5, 6]) 2
      [5, 6, 1, 2, 3, 4] 1 2 3 4 [] (by decide) (by decide)).2

end Stm32Crc
